import Mathlib

/-!
# Verification of the directory-scan tool (`src/main.rs`)

Shallow embedding of the Rust program: a `FileSystem` owns a vector of
`FileStats`; `scan_directory` walks a directory tree (via `walkdir`,
skipping enumeration errors), records per-entry metadata, and the query
functions `get_directory_size`, `get_file_types_summary`,
`find_largest_files` plus the pure formatter `format_size` derive views.

Modelling conventions:
* `Vec<FileStats>` becomes `List FileStats`, pushes append at the right end,
  so list order is traversal order.
* The filesystem state seen by `WalkDir` is modelled as the list of items the
  `walkdir` iterator yields: `Err(_)` items (enumeration errors, which
  `filter_map(|e| e.ok())` drops) and `Ok(entry)` items carrying the result
  of `entry.metadata()` (`none` when the stat call fails) and of
  `metadata.modified()` inside `Metadata`.
* `u64`/`usize` become `Nat` (all quantities are non-negative counts; no
  wrap-around arithmetic occurs in the program).
* `SystemTime` is an opaque timestamp, modelled as `Nat`.
* `HashMap<String,(usize,u64)>` becomes an association list with unique keys;
  `entry(k).or_insert` updates in place or appends a fresh entry. The map's
  iteration order is irrelevant to every property proved here (only sums,
  counts and key membership are used).
* Rust strings are UTF-8; `str::to_lowercase` is modelled by `Char.toLower`
  (correct on ASCII, the domain of every property stated below).
-/

/-- One record per visited entry (Rust struct `FileStats`). -/
structure FileStats where
  path : String
  size : Nat
  file_type : String
  last_modified : Nat
deriving Repr, DecidableEq

/-- The aggregator (Rust struct `FileSystem`). -/
structure FileSystem where
  root_path : String
  stats : List FileStats
deriving Repr, DecidableEq

/-- `FileSystem::new`: empty stats vector. -/
def FileSystem.new (root_path : String) : FileSystem :=
  ⟨root_path, []⟩

/-- Classification bits of `std::fs::Metadata`: `is_dir` / `is_file` /
neither (symlink, device, socket, ...). -/
inductive FileKind where
  | dir
  | file
  | other
deriving Repr, DecidableEq

/-- Result of a successful `entry.metadata()` call: the type bits, `len()`,
and the result of `modified()` (`none` when that call fails). -/
structure Metadata where
  kind : FileKind
  len : Nat
  modified : Option Nat
deriving Repr, DecidableEq

/-- One item yielded by the `WalkDir` iterator: an enumeration error
(dropped by `filter_map(|e| e.ok())`), or an enumerated entry with its path
and the outcome of the subsequent `entry.metadata()` call. -/
inductive WalkEntry where
  | err
  | ok (path : String) (meta : Option Metadata)
deriving Repr, DecidableEq

/-- Whether a walk item is an enumeration error. -/
def WalkEntry.isErr : WalkEntry → Bool
  | .err => true
  | .ok _ _ => false

/-- Errors `scan_directory` can propagate via `?`: a failing
`entry.metadata()` or a failing `metadata.modified()`. (The loop skips
enumeration errors, so nothing else can fail; in particular no error is
raised for an unreadable root.) -/
inductive ScanError where
  | metadataUnavailable (path : String)
  | modifiedUnavailable (path : String)
deriving Repr, DecidableEq

/-- The `file_type` string stored for each metadata classification. -/
def kindStr : FileKind → String
  | .dir => "directory"
  | .file => "file"
  | .other => "other"

/-- Running counters printed in the scan summary (`dir_count`, `file_count`,
`total_size`), accumulated incrementally during the walk. -/
structure ScanSummary where
  dir_count : Nat
  file_count : Nat
  total_size : Nat
deriving Repr, DecidableEq

/-- The body of the `for entry in WalkDir::new(..)` loop of
`scan_directory`, iterated over the walk items: `.err` items are skipped,
a failing `metadata()` or `modified()` aborts via `?`, and otherwise a
`FileStats` record is pushed and the counters updated. -/
def scanGo : List FileStats → ScanSummary → List WalkEntry →
    Except ScanError (List FileStats × ScanSummary)
  | stats, summ, [] => .ok (stats, summ)
  | stats, summ, .err :: rest => scanGo stats summ rest
  | _, _, .ok p none :: _ => .error (.metadataUnavailable p)
  | stats, summ, .ok p (some m) :: rest =>
    match m.modified with
    | none => .error (.modifiedUnavailable p)
    | some t =>
      let summ2 : ScanSummary :=
        match m.kind with
        | .dir => ⟨summ.dir_count + 1, summ.file_count, summ.total_size⟩
        | .file => ⟨summ.dir_count, summ.file_count + 1, summ.total_size + m.len⟩
        | .other => summ
      scanGo (stats ++ [⟨p, m.len, kindStr m.kind, t⟩]) summ2 rest

/-- `FileSystem::scan_directory`: clears the stats vector, then runs the
walk loop. On success the final summary counters are printed; on a
propagated error nothing more is printed and the partial stats are dropped
with the mutated receiver. The walk items are an explicit input standing
for the filesystem state under the root. -/
def scan_directory (fs : FileSystem) (walk : List WalkEntry) :
    Except ScanError (FileSystem × ScanSummary) :=
  match scanGo [] ⟨0, 0, 0⟩ walk with
  | .ok (stats, summ) => .ok (⟨fs.root_path, stats⟩, summ)
  | .error e => .error e

/-- `FileSystem::get_directory_size`: sum of `size` over records whose
`file_type` is `"file"`. -/
def get_directory_size (stats : List FileStats) : Nat :=
  ((stats.filter fun s => s.file_type == "file").map fun s => s.size).sum

/-- The characters strictly after the last occurrence of `c`, if any. -/
def afterLast (c : Char) : List Char → Option (List Char)
  | [] => none
  | x :: xs =>
    match afterLast c xs with
    | some r => some r
    | none => if x == c then some xs else none

/-- Characters of the last path component: Rust `Path::file_name` on Unix —
trailing slashes are ignored and the part after the last `/` is taken. -/
def fileNameChars (p : String) : List Char :=
  let l := (p.data.reverse.dropWhile fun c => c == '/').reverse
  match afterLast '/' l with
  | some r => r
  | none => l

/-- Rust `Path::extension` on the file name: `none` when the name is empty,
is `.` or `..` (no file-name component), or when no `.` occurs past the
first character (so a leading-dot-only name like `.gitignore` has no
extension); otherwise the characters after the last `.`. -/
def rustExtension (p : String) : Option (List Char) :=
  match fileNameChars p with
  | [] => none
  | ['.', '.'] => none
  | _ :: rest => afterLast '.' rest

/-- The grouping key used by `get_file_types_summary`:
`extension().and_then(to_str).unwrap_or("no_extension").to_lowercase()`
(lowercasing `"no_extension"` is the identity). -/
def extKey (p : String) : String :=
  match rustExtension p with
  | some e => ⟨e.map Char.toLower⟩
  | none => "no_extension"

/-- The extension rule as the spec states it, for comparison with the code:
the substring after the last `.` in the file-name component, lowercased;
`no_extension` when the name has no dot. -/
def claimExtKey (p : String) : String :=
  match afterLast '.' (fileNameChars p) with
  | some e => ⟨e.map Char.toLower⟩
  | none => "no_extension"

/-- `extensions.entry(ext).or_insert((0,0))` followed by `+= 1` / `+= size`:
bump the entry for key `k` in place, or append a fresh `(k, 1, sz)` entry. -/
def bumpExt (l : List (String × Nat × Nat)) (k : String) (sz : Nat) :
    List (String × Nat × Nat) :=
  match l with
  | [] => [(k, 1, sz)]
  | (k2, c, t) :: rest =>
    if k2 == k then (k2, c + 1, t + sz) :: rest
    else (k2, c, t) :: bumpExt rest k sz

/-- The loop body of `get_file_types_summary`: `"file"` records bump their
extension entry, all other records leave the map unchanged. -/
def summStep (acc : List (String × Nat × Nat)) (stat : FileStats) :
    List (String × Nat × Nat) :=
  if stat.file_type == "file" then bumpExt acc (extKey stat.path) stat.size
  else acc

/-- `FileSystem::get_file_types_summary`: one pass over the stats vector,
bumping `(count, total size)` per extension key for `"file"` records. -/
def get_file_types_summary (stats : List FileStats) :
    List (String × Nat × Nat) :=
  stats.foldl summStep []

/-- Sum of the `totalSize` component over the summary entries. -/
def sumSizes : List (String × Nat × Nat) → Nat
  | [] => 0
  | e :: l => e.2.2 + sumSizes l

/-- Sum of the `count` component over the summary entries. -/
def sumCounts : List (String × Nat × Nat) → Nat
  | [] => 0
  | e :: l => e.2.1 + sumCounts l

/-- The comparator of `files.sort_by(|a, b| b.size.cmp(&a.size))`: `a`
precedes `b` when `a` is at least as large. -/
def sizeGE (a b : FileStats) : Prop := b.size ≤ a.size

instance : DecidableRel sizeGE := fun a b => Nat.decLe b.size a.size

instance : IsTotal FileStats sizeGE := ⟨fun a b => Nat.le_total b.size a.size⟩

instance : IsTrans FileStats sizeGE :=
  ⟨fun _ _ _ h1 h2 => Nat.le_trans h2 h1⟩

/-- `FileSystem::find_largest_files`: filter to `"file"` records, sort by
size descending, truncate to `limit`. Rust `sort_by` is a stable sort; for a
total preorder every stable sort yields the same list, so it is modelled by
`List.insertionSort`, which is stable and places an element inserted later
(i.e. occurring earlier in the input) before equal-size elements. -/
def find_largest_files (stats : List FileStats) (limit : Nat) :
    List FileStats :=
  (List.insertionSort sizeGE (stats.filter fun s => s.file_type == "file")).take
    limit

/-- Round-half-to-even of `(size * 100) / unit`: the integer of hundredths
printed by Rust's `format!("\x7b:.2\x7d", size as f64 / unit as f64)`. For
`size < 2^53` the cast is exact and dividing by the power of two `unit` only
shifts the exponent, so the `f64` equals the rational `size / unit` exactly,
and the formatter rounds that value to two decimals ties-to-even. -/
def round2 (size unit : Nat) : Nat :=
  let n := size * 100
  if 2 * (n % unit) < unit then n / unit
  else if unit < 2 * (n % unit) then n / unit + 1
  else if (n / unit) % 2 == 0 then n / unit else n / unit + 1

/-- Two-digit zero padding of the fractional part. -/
def pad2 (n : Nat) : String :=
  if n < 10 then "0" ++ toString n else toString n

/-- The `"x.yz"` body rendered for `size / unit` with two decimals. -/
def fmt2 (size unit : Nat) : String :=
  toString (round2 size unit / 100) ++ "." ++ pad2 (round2 size unit % 100)

/-- `format_size`: the if-chain over the `GB`/`MB`/`KB` thresholds from the
source, rendering integer bytes below 1 KB. -/
def format_size (size : Nat) : String :=
  if 1024 * 1024 * 1024 ≤ size then fmt2 size (1024 * 1024 * 1024) ++ " GB"
  else if 1024 * 1024 ≤ size then fmt2 size (1024 * 1024) ++ " MB"
  else if 1024 ≤ size then fmt2 size 1024 ++ " KB"
  else toString size ++ " bytes"

/-- The formatting rule as the spec states it: pick the largest unit among
GB, MB, KB whose threshold the value reaches, else integer bytes. -/
def formatSizeSpec (size : Nat) : String :=
  match [(1024 * 1024 * 1024, " GB"), (1024 * 1024, " MB"), (1024, " KB")].find?
      (fun u => decide (u.1 ≤ size)) with
  | some u => fmt2 size u.1 ++ u.2
  | none => toString size ++ " bytes"

/-! ## Lemmas about the scan loop -/

/-- A walk consisting only of enumeration errors leaves the loop state
untouched. -/
theorem scanGo_all_err (stats : List FileStats) (summ : ScanSummary) :
    ∀ walk : List WalkEntry, (∀ e ∈ walk, e = WalkEntry.err) →
      scanGo stats summ walk = .ok (stats, summ)
  | [], _ => rfl
  | e :: rest, h => by
    have he := h e (List.mem_cons_self e rest)
    subst he
    exact scanGo_all_err stats summ rest fun x hx => h x (List.mem_cons_of_mem _ hx)

/-- An entry whose `metadata()` call fails forces the loop into an error,
wherever it occurs in the walk. -/
theorem scanGo_metadata_err_mem :
    ∀ (walk : List WalkEntry) (stats : List FileStats) (summ : ScanSummary)
      (p : String), WalkEntry.ok p none ∈ walk →
      ∃ e, scanGo stats summ walk = .error e
  | [], _, _, _, h => absurd h (List.not_mem_nil _)
  | .err :: rest, stats, summ, p, h => by
    have : WalkEntry.ok p none ∈ rest := by
      cases List.mem_cons.mp h with
      | inl hc => exact absurd hc (by simp)
      | inr hm => exact hm
    exact scanGo_metadata_err_mem rest stats summ p this
  | .ok q none :: _, _, _, _, _ => ⟨.metadataUnavailable q, rfl⟩
  | .ok q (some m) :: rest, stats, summ, p, h => by
    have hmem : WalkEntry.ok p none ∈ rest := by
      cases List.mem_cons.mp h with
      | inl hc => exact absurd hc (by simp)
      | inr hm => exact hm
    cases hm : m.modified with
    | none => exact ⟨.modifiedUnavailable q, by simp [scanGo, hm]⟩
    | some t =>
      obtain ⟨e, he⟩ := scanGo_metadata_err_mem rest
        (stats ++ [⟨q, m.len, kindStr m.kind, t⟩])
        (match m.kind with
          | .dir => ⟨summ.dir_count + 1, summ.file_count, summ.total_size⟩
          | .file => ⟨summ.dir_count, summ.file_count + 1, summ.total_size + m.len⟩
          | .other => summ) p hmem
      exact ⟨e, by simp [scanGo, hm]; exact he⟩

/-- A walk item that cannot make the loop fail: an enumeration error, or an
enumerated entry whose `metadata()` and `modified()` calls both succeed. -/
def cleanEntry : WalkEntry → Bool
  | .err => true
  | .ok _ none => false
  | .ok _ (some m) => m.modified.isSome

/-- Processing a clean prefix of the walk only moves the loop state along;
the loop then continues on the rest of the walk. -/
theorem scanGo_clean_append :
    ∀ (pre : List WalkEntry), (∀ e ∈ pre, cleanEntry e = true) →
      ∀ (stats : List FileStats) (summ : ScanSummary) (rest : List WalkEntry),
      ∃ stats2 summ2, scanGo stats summ (pre ++ rest) = scanGo stats2 summ2 rest
  | [], _, stats, summ, _ => ⟨stats, summ, rfl⟩
  | .err :: pre, h, stats, summ, rest =>
    scanGo_clean_append pre (fun x hx => h x (List.mem_cons_of_mem _ hx))
      stats summ rest
  | .ok q none :: _, h, _, _, _ => by
    have := h (.ok q none) (List.mem_cons_self _ _)
    simp [cleanEntry] at this
  | .ok q (some m) :: pre, h, stats, summ, rest => by
    have hc := h (.ok q (some m)) (List.mem_cons_self _ _)
    simp only [cleanEntry, Option.isSome_iff_exists] at hc
    obtain ⟨t, ht⟩ := hc
    have := scanGo_clean_append pre (fun x hx => h x (List.mem_cons_of_mem _ hx))
      (stats ++ [⟨q, m.len, kindStr m.kind, t⟩])
      (match m.kind with
        | .dir => ⟨summ.dir_count + 1, summ.file_count, summ.total_size⟩
        | .file => ⟨summ.dir_count, summ.file_count + 1, summ.total_size + m.len⟩
        | .other => summ) rest
    simpa [scanGo, ht] using this

/-- Dropping the enumeration errors from the walk does not change the loop:
`filter_map(|e| e.ok())` skips exactly those items. -/
theorem scanGo_filter_err :
    ∀ (walk : List WalkEntry) (stats : List FileStats) (summ : ScanSummary),
      scanGo stats summ (walk.filter fun e => !e.isErr) = scanGo stats summ walk
  | [], _, _ => rfl
  | .err :: rest, stats, summ => by
    simpa [WalkEntry.isErr, scanGo] using scanGo_filter_err rest stats summ
  | .ok q none :: rest, stats, summ => by
    simp [WalkEntry.isErr, scanGo]
  | .ok q (some m) :: rest, stats, summ => by
    cases hm : m.modified with
    | none => simp [WalkEntry.isErr, scanGo, hm]
    | some t => simpa [WalkEntry.isErr, scanGo, hm] using scanGo_filter_err rest _ _

/-- Successful scans only store records that carry the metadata of some
enumerated walk item: path, `len()` and classification string all come from
that item's `Metadata`. -/
theorem scanGo_ok_mem :
    ∀ (walk : List WalkEntry) (stats : List FileStats) (summ : ScanSummary)
      (out : List FileStats × ScanSummary),
      scanGo stats summ walk = .ok out → ∀ r ∈ out.1,
      r ∈ stats ∨ ∃ m : Metadata, WalkEntry.ok r.path (some m) ∈ walk ∧
        r.size = m.len ∧ r.file_type = kindStr m.kind
  | [], stats, summ, out, h, r, hr => by
    cases h
    exact Or.inl hr
  | .err :: rest, stats, summ, out, h, r, hr => by
    cases scanGo_ok_mem rest stats summ out h r hr with
    | inl hs => exact Or.inl hs
    | inr hm =>
      obtain ⟨m, hmem, hrest⟩ := hm
      exact Or.inr ⟨m, List.mem_cons_of_mem _ hmem, hrest⟩
  | .ok q none :: _, _, _, _, h, _, _ => by cases h
  | .ok q (some m) :: rest, stats, summ, out, h, r, hr => by
    rw [scanGo] at h
    cases hm : m.modified with
    | none => rw [hm] at h; cases h
    | some t =>
      rw [hm] at h
      cases scanGo_ok_mem rest _ _ out h r hr with
      | inl hs =>
        cases List.mem_append.mp hs with
        | inl h1 => exact Or.inl h1
        | inr h2 =>
          have : r = ⟨q, m.len, kindStr m.kind, t⟩ := by simpa using h2
          subst this
          exact Or.inr ⟨m, List.mem_cons_self _ _, rfl, rfl⟩
      | inr hm2 =>
        obtain ⟨m2, hmem, hrest⟩ := hm2
        exact Or.inr ⟨m2, List.mem_cons_of_mem _ hmem, hrest⟩

/-! ## The claims -/

/-- C1 (amended): when the root path does not exist or is not readable, the
`WalkDir` iterator yields only error items; `filter_map(|e| e.ok())` skips
them all, so `scan_directory` does NOT fail: it completes successfully with
an empty result set and zero summary counters (and the summary report is
printed). No `RootUnreadable` error exists in the program. -/
theorem scan_unreadable_root_succeeds_empty (fs : FileSystem)
    (walk : List WalkEntry) (h : ∀ e ∈ walk, e = WalkEntry.err) :
    scan_directory fs walk = .ok (⟨fs.root_path, []⟩, ⟨0, 0, 0⟩) := by
  unfold scan_directory
  rw [scanGo_all_err [] ⟨0, 0, 0⟩ walk h]

/-- C1 witness: the amended claim at the concrete one-error walk that
`WalkDir` produces for a nonexistent root. -/
theorem scan_unreadable_root_succeeds_empty_witness :
    scan_directory (FileSystem.new "/nonexistent") [WalkEntry.err] =
      .ok (⟨"/nonexistent", []⟩, ⟨0, 0, 0⟩) :=
  scan_unreadable_root_succeeds_empty (FileSystem.new "/nonexistent")
    [WalkEntry.err] (by decide)

/-- C1 counterexample: scanning a nonexistent root (whose walk is a single
enumeration error) returns `Ok` with an empty result set — it does not fail
with any error, contradicting the claimed `RootUnreadable` failure. -/
theorem scan_root_unreadable_counterexample :
    scan_directory (FileSystem.new "/nonexistent") [WalkEntry.err] =
      .ok (⟨"/nonexistent", []⟩, ⟨0, 0, 0⟩) ∧
    (scan_directory (FileSystem.new "/nonexistent") [WalkEntry.err]).isOk = true :=
  ⟨rfl, rfl⟩

/-- C2 (amended): a record classified `"directory"` stores the
metadata-reported length of that directory entry — the program does not zero
it, so it is `0` only when the filesystem reports length `0`. -/
theorem directory_record_size_is_metadata_len (fs : FileSystem)
    (walk : List WalkEntry) (out : FileSystem × ScanSummary)
    (h : scan_directory fs walk = .ok out) (r : FileStats)
    (hr : r ∈ out.1.stats) (hd : r.file_type = "directory") :
    ∃ m : Metadata, m.kind = FileKind.dir ∧
      WalkEntry.ok r.path (some m) ∈ walk ∧ r.size = m.len := by
  unfold scan_directory at h
  cases hgo : scanGo [] ⟨0, 0, 0⟩ walk with
  | error e => rw [hgo] at h; cases h
  | ok pair =>
    rw [hgo] at h
    cases h
    have hr2 : r ∈ pair.1 := hr
    cases scanGo_ok_mem walk [] ⟨0, 0, 0⟩ pair hgo r hr2 with
    | inl hs => exact absurd hs (List.not_mem_nil r)
    | inr hm =>
      obtain ⟨m, hmem, hsize, htype⟩ := hm
      have hks : kindStr m.kind = "directory" := by rw [← htype, hd]
      refine ⟨m, ?_, hmem, hsize⟩
      cases hk : m.kind with
      | dir => rfl
      | file => rw [hk] at hks; exact absurd hks (by decide)
      | other => rw [hk] at hks; exact absurd hks (by decide)

/-- C2 witness: the amended claim at a concrete scan of one directory whose
metadata length is 4096. -/
theorem directory_record_size_is_metadata_len_witness :
    ∃ m : Metadata, m.kind = FileKind.dir ∧
      WalkEntry.ok "r/d" (some m) ∈
        [WalkEntry.ok "r/d" (some ⟨FileKind.dir, 4096, some 0⟩)] ∧
      (4096 : Nat) = m.len :=
  directory_record_size_is_metadata_len (FileSystem.new "r")
    [WalkEntry.ok "r/d" (some ⟨FileKind.dir, 4096, some 0⟩)]
    (⟨"r", [⟨"r/d", 4096, "directory", 0⟩]⟩, ⟨1, 0, 0⟩) rfl
    ⟨"r/d", 4096, "directory", 0⟩ (by simp) rfl

/-- C2 counterexample: a scan storing a directory record with the nonzero
metadata length 4096 (the typical length `stat` reports for a directory), so
not every `Directory` record has size `0`. -/
theorem directory_zero_size_counterexample :
    scan_directory (FileSystem.new "r")
        [WalkEntry.ok "r/d" (some ⟨FileKind.dir, 4096, some 0⟩)] =
      .ok (⟨"r", [⟨"r/d", 4096, "directory", 0⟩]⟩, ⟨1, 0, 0⟩) ∧
    (FileStats.mk "r/d" 4096 "directory" 0).file_type = "directory" ∧
    (FileStats.mk "r/d" 4096 "directory" 0).size ≠ 0 :=
  ⟨rfl, rfl, by decide⟩

/-- C3: a failing per-entry `metadata()` call aborts the whole scan — in
general some error is propagated whenever such an entry occurs in the walk,
and when everything before it is clean the error is exactly
`MetadataUnavailable` for that path — while enumeration errors are always
skipped: deleting them from the walk never changes the scan's outcome. -/
theorem metadata_error_aborts_scan (fs : FileSystem)
    (walk pre post : List WalkEntry) (p : String) :
    (WalkEntry.ok p none ∈ walk → ∃ e, scan_directory fs walk = .error e) ∧
    ((∀ e ∈ pre, cleanEntry e = true) →
      scan_directory fs (pre ++ WalkEntry.ok p none :: post) =
        .error (.metadataUnavailable p)) ∧
    scan_directory fs (walk.filter fun e => !e.isErr) =
      scan_directory fs walk := by
  refine ⟨?_, ?_, ?_⟩
  · intro hmem
    obtain ⟨e, he⟩ := scanGo_metadata_err_mem walk [] ⟨0, 0, 0⟩ p hmem
    exact ⟨e, by unfold scan_directory; rw [he]⟩
  · intro hclean
    obtain ⟨stats2, summ2, heq⟩ :=
      scanGo_clean_append pre hclean [] ⟨0, 0, 0⟩ (WalkEntry.ok p none :: post)
    unfold scan_directory
    rw [heq]
    rfl
  · unfold scan_directory
    rw [scanGo_filter_err]

/-- C3 witness: a walk with one skipped enumeration error followed by an
entry whose `metadata()` fails aborts with `MetadataUnavailable` for that
entry's path. -/
theorem metadata_error_aborts_scan_witness :
    scan_directory (FileSystem.new "r")
        [WalkEntry.err, WalkEntry.ok "r/x" none] =
      .error (.metadataUnavailable "r/x") :=
  (metadata_error_aborts_scan (FileSystem.new "r") [] [WalkEntry.err] []
    "r/x").2.1 (by decide)

/-! ## Lemmas about the extension summary -/

/-- Bumping a key adds exactly its size to the summed `totalSize`. -/
theorem sumSizes_bumpExt (k : String) (sz : Nat) :
    ∀ l : List (String × Nat × Nat), sumSizes (bumpExt l k sz) = sumSizes l + sz
  | [] => by simp [bumpExt, sumSizes]
  | (k2, c, t) :: rest => by
    by_cases h : k2 == k
    · simp [bumpExt, h, sumSizes]
      omega
    · simp [bumpExt, h, sumSizes, sumSizes_bumpExt k sz rest]
      omega

/-- Bumping a key adds exactly one to the summed `count`. -/
theorem sumCounts_bumpExt (k : String) (sz : Nat) :
    ∀ l : List (String × Nat × Nat), sumCounts (bumpExt l k sz) = sumCounts l + 1
  | [] => by simp [bumpExt, sumCounts]
  | (k2, c, t) :: rest => by
    by_cases h : k2 == k
    · simp [bumpExt, h, sumCounts]
      omega
    · simp [bumpExt, h, sumCounts, sumCounts_bumpExt k sz rest]
      omega

/-- Folding the summary step over the stats adds the total `"file"` size to
the summed `totalSize` of any starting map. -/
theorem sumSizes_foldl :
    ∀ (stats : List FileStats) (acc : List (String × Nat × Nat)),
      sumSizes (stats.foldl summStep acc) = sumSizes acc + get_directory_size stats
  | [], acc => by simp [get_directory_size]
  | s :: rest, acc => by
    by_cases h : s.file_type == "file"
    · simp only [List.foldl_cons, summStep, h, if_true]
      rw [sumSizes_foldl rest (bumpExt acc (extKey s.path) s.size),
        sumSizes_bumpExt]
      simp [get_directory_size, List.filter_cons, h]
      omega
    · simp only [List.foldl_cons, summStep, h, if_false, Bool.false_eq_true]
      rw [sumSizes_foldl rest acc]
      simp [get_directory_size, List.filter_cons, h]

/-- Folding the summary step over the stats adds the number of `"file"`
records to the summed `count` of any starting map. -/
theorem sumCounts_foldl :
    ∀ (stats : List FileStats) (acc : List (String × Nat × Nat)),
      sumCounts (stats.foldl summStep acc) =
        sumCounts acc + (stats.filter fun s => s.file_type == "file").length
  | [], acc => by simp
  | s :: rest, acc => by
    by_cases h : s.file_type == "file"
    · simp only [List.foldl_cons, summStep, h, if_true]
      rw [sumCounts_foldl rest (bumpExt acc (extKey s.path) s.size),
        sumCounts_bumpExt]
      simp [List.filter_cons, h]
      omega
    · simp only [List.foldl_cons, summStep, h, if_false, Bool.false_eq_true]
      rw [sumCounts_foldl rest acc]
      simp [List.filter_cons, h]

/-- Non-`"file"` records leave the summary fold unchanged, so the fold over
the stats equals the fold over just the `"file"` records. -/
theorem foldl_summStep_filter :
    ∀ (stats : List FileStats) (acc : List (String × Nat × Nat)),
      stats.foldl summStep acc =
        (stats.filter fun s => s.file_type == "file").foldl summStep acc
  | [], _ => rfl
  | s :: rest, acc => by
    by_cases h : s.file_type == "file"
    · simp only [List.foldl_cons, List.filter_cons, h, if_true]
      exact foldl_summStep_filter rest _
    · simp only [List.foldl_cons, List.filter_cons, h, if_false, summStep,
        Bool.false_eq_true]
      exact foldl_summStep_filter rest acc

/-- C4: the scan's total size — `get_directory_size` — is the sum of `size`
over the `"file"` records, and equals the sum of the per-extension
`totalSize` values of `get_file_types_summary` (cross-check invariant). -/
theorem total_size_cross_check (stats : List FileStats) :
    get_directory_size stats =
      ((stats.filter fun s => s.file_type == "file").map fun s => s.size).sum ∧
    get_directory_size stats = sumSizes (get_file_types_summary stats) := by
  refine ⟨rfl, ?_⟩
  unfold get_file_types_summary
  rw [sumSizes_foldl stats []]
  simp [sumSizes]

/-- C8: the per-extension counts of `get_file_types_summary` sum to the
number of `"file"` records, and only `"file"` records feed the summary
(directories and `"other"` records are filtered out by the loop guard). -/
theorem summary_counts_files (stats : List FileStats) :
    sumCounts (get_file_types_summary stats) =
      (stats.filter fun s => s.file_type == "file").length ∧
    get_file_types_summary stats =
      get_file_types_summary (stats.filter fun s => s.file_type == "file") := by
  constructor
  · unfold get_file_types_summary
    rw [sumCounts_foldl stats []]
    simp [sumCounts]
  · exact foldl_summStep_filter stats []

/-- C9: the three query operations are total and degrade to zero/empty on a
never-scanned aggregator: `FileSystem::new` starts with an empty stats
vector, on which `get_directory_size` returns `0`, `get_file_types_summary`
returns the empty map, and `find_largest_files` returns the empty list for
every limit. -/
theorem queries_total_on_new (root : String) (limit : Nat) :
    (FileSystem.new root).stats = [] ∧
    get_directory_size (FileSystem.new root).stats = 0 ∧
    get_file_types_summary (FileSystem.new root).stats = [] ∧
    find_largest_files (FileSystem.new root).stats limit = [] := by
  refine ⟨rfl, rfl, rfl, ?_⟩
  simp [find_largest_files, FileSystem.new]

/-! ## Lemmas about the descending sort -/

/-- Filtering one size class out of an ordered insertion: the inserted
element lands in front of its own size class (every element it is placed
behind is strictly larger), so the filtered list just gains `a` at the front
when `a` belongs to the class. -/
theorem filter_orderedInsert_size (s : Nat) (a : FileStats) :
    ∀ l : List FileStats,
      (List.orderedInsert sizeGE a l).filter (fun f => f.size == s) =
        if a.size = s then a :: l.filter (fun f => f.size == s)
        else l.filter (fun f => f.size == s)
  | [] => by
    by_cases h : a.size = s <;> simp [List.orderedInsert, List.filter_cons, h]
  | b :: l => by
    by_cases hr : sizeGE a b
    · rw [List.orderedInsert, if_pos hr]
      by_cases h : a.size = s <;> simp [List.filter_cons, h]
    · rw [List.orderedInsert, if_neg hr]
      have hb : a.size < b.size := Nat.lt_of_not_le hr
      by_cases h : a.size = s
      · have hbs : ¬ (b.size = s) := by omega
        simp [List.filter_cons, hbs, filter_orderedInsert_size s a l, h]
      · by_cases hbs : b.size = s <;>
          simp [List.filter_cons, hbs, filter_orderedInsert_size s a l, h]

/-- Stability of the descending sort: within one size class the sorted list
preserves the input order exactly. -/
theorem filter_insertionSort_size (s : Nat) :
    ∀ l : List FileStats,
      (List.insertionSort sizeGE l).filter (fun f => f.size == s) =
        l.filter (fun f => f.size == s)
  | [] => rfl
  | a :: l => by
    rw [List.insertionSort, filter_orderedInsert_size]
    by_cases h : a.size = s <;>
      simp [List.filter_cons, h, filter_insertionSort_size s l]

/-- C5: `find_largest_files` returns a sequence sorted non-increasing by
size, of length `min limit fileCount`, that is a sub-multiset of the
`"file"` records (no record is used more often than it occurs); limit `0`
gives the empty sequence, and a limit at least the file count returns
exactly all `"file"` records (as a permutation). -/
theorem largest_files_spec (stats : List FileStats) (limit : Nat) :
    List.Sorted sizeGE (find_largest_files stats limit) ∧
    (find_largest_files stats limit).length =
      min limit (stats.filter fun s => s.file_type == "file").length ∧
    (find_largest_files stats limit).Subperm
      (stats.filter fun s => s.file_type == "file") ∧
    find_largest_files stats 0 = [] ∧
    ((stats.filter fun s => s.file_type == "file").length ≤ limit →
      (find_largest_files stats limit).Perm
        (stats.filter fun s => s.file_type == "file")) := by
  refine ⟨?_, ?_, ?_, rfl, ?_⟩
  · exact (List.sorted_insertionSort sizeGE _).sublist (List.take_sublist _ _)
  · simp [find_largest_files, List.length_take, List.length_insertionSort]
  · exact ((List.take_sublist _ _).subperm).trans
      (List.perm_insertionSort sizeGE _).subperm
  · intro h
    unfold find_largest_files
    rw [List.take_of_length_le (by rw [List.length_insertionSort]; exact h)]
    exact List.perm_insertionSort sizeGE _

/-- C5 witness: the concrete four-record scan from the spec scenarios,
truncated at a limit exceeding the file count, returns exactly all files. -/
theorem largest_files_spec_witness :
    (find_largest_files
        [⟨"a", 3, "file", 0⟩, ⟨"d", 9, "directory", 0⟩, ⟨"b", 9, "file", 0⟩] 5).Perm
      ([⟨"a", 3, "file", 0⟩, ⟨"d", 9, "directory", 0⟩,
          ⟨"b", 9, "file", 0⟩].filter fun s => s.file_type == "file") :=
  (largest_files_spec
    [⟨"a", 3, "file", 0⟩, ⟨"d", 9, "directory", 0⟩, ⟨"b", 9, "file", 0⟩]
    5).2.2.2.2 (by decide)

/-- C10: ties are broken stably by traversal order — for every size class,
the class's subsequence of `find_largest_files` is a prefix of the class's
subsequence of the `"file"` records in stored order (Rust `sort_by` is
stable and the comparator looks only at `size`). -/
theorem largest_files_stable_ties (stats : List FileStats) (limit : Nat)
    (s : Nat) :
    (find_largest_files stats limit).filter (fun f => f.size == s) <+:
      ((stats.filter fun x => x.file_type == "file").filter
        fun f => f.size == s) := by
  obtain ⟨t, ht⟩ : find_largest_files stats limit <+:
      List.insertionSort sizeGE (stats.filter fun x => x.file_type == "file") :=
    List.take_prefix _ _
  refine ⟨t.filter (fun f => f.size == s), ?_⟩
  rw [← List.filter_append, ht, filter_insertionSort_size]

/-- C6: `format_size` renders sizes below 1 KB as integer bytes and
otherwise picks the largest 1024-power unit reached, dividing with two
decimal places — i.e. it agrees with the unit-selection rule
`formatSizeSpec` everywhere — and produces the four example renderings. -/
theorem format_size_matches_spec (size : Nat) :
    format_size size = formatSizeSpec size ∧
    format_size 512 = "512 bytes" ∧
    format_size 2048 = "2.00 KB" ∧
    format_size 1572864 = "1.50 MB" ∧
    format_size 1073741824 = "1.00 GB" := by
  refine ⟨?_, by decide, by decide, by decide, by decide⟩
  unfold format_size formatSizeSpec
  by_cases h1 : 1024 * 1024 * 1024 ≤ size
  · simp [List.find?, h1]
  · by_cases h2 : 1024 * 1024 ≤ size
    · simp [List.find?, h1, h2]
    · by_cases h3 : 1024 ≤ size
      · simp [List.find?, h1, h2, h3]
      · simp [List.find?, h1, h2, h3]

/-! ## Lemmas about summary keys -/

/-- After bumping key `k`, the map has an entry for `k`. -/
theorem bumpExt_mem_self (k : String) (sz : Nat) :
    ∀ l : List (String × Nat × Nat), ∃ c t, (k, c, t) ∈ bumpExt l k sz
  | [] => ⟨1, sz, List.mem_singleton_self _⟩
  | (k2, c, t) :: rest => by
    by_cases h : k2 == k
    · have hk : k2 = k := by simpa using h
      subst hk
      exact ⟨c + 1, t + sz, by simp [bumpExt]⟩
    · obtain ⟨c2, t2, hm⟩ := bumpExt_mem_self k sz rest
      exact ⟨c2, t2, by simp [bumpExt, h]; exact Or.inr hm⟩

/-- Bumping any key preserves the presence of every existing key. -/
theorem bumpExt_mem_keep (k : String) (sz : Nat) (k2 : String) :
    ∀ l : List (String × Nat × Nat), (∃ c t, (k2, c, t) ∈ l) →
      ∃ c t, (k2, c, t) ∈ bumpExt l k sz
  | [], h => by
    obtain ⟨c, t, hm⟩ := h
    exact absurd hm (List.not_mem_nil _)
  | (k3, c3, t3) :: rest, h => by
    obtain ⟨c, t, hm⟩ := h
    by_cases hk : k3 == k
    · cases List.mem_cons.mp hm with
      | inl he =>
        have : k2 = k3 := congrArg Prod.fst he
        subst this
        exact ⟨c3 + 1, t3 + sz, by simp [bumpExt, hk]⟩
      | inr hr => exact ⟨c, t, by simp [bumpExt, hk]; exact Or.inr hr⟩
    · cases List.mem_cons.mp hm with
      | inl he => exact ⟨c, t, by simp [bumpExt, hk]; exact Or.inl (by simpa using he)⟩
      | inr hr =>
        obtain ⟨c2, t2, hm2⟩ := bumpExt_mem_keep k sz k2 rest ⟨c, t, hr⟩
        exact ⟨c2, t2, by simp [bumpExt, hk]; exact Or.inr hm2⟩

/-- Keys present in the accumulator survive the whole summary fold. -/
theorem foldl_summStep_keep :
    ∀ (stats : List FileStats) (acc : List (String × Nat × Nat)) (k : String),
      (∃ c t, (k, c, t) ∈ acc) → ∃ c t, (k, c, t) ∈ stats.foldl summStep acc
  | [], _, _, h => h
  | s :: rest, acc, k, h => by
    by_cases hf : s.file_type == "file"
    · exact foldl_summStep_keep rest _ k
        (by simpa [summStep, hf] using bumpExt_mem_keep (extKey s.path) s.size k acc h)
    · exact foldl_summStep_keep rest _ k (by simpa [summStep, hf] using h)

/-- Every `"file"` record's extension key ends up as a key of the summary
fold, whatever the accumulator. -/
theorem foldl_summStep_file_key :
    ∀ (stats : List FileStats) (acc : List (String × Nat × Nat))
      (r : FileStats), r ∈ stats → r.file_type = "file" →
      ∃ c t, (extKey r.path, c, t) ∈ stats.foldl summStep acc
  | [], _, _, h, _ => absurd h (List.not_mem_nil _)
  | s :: rest, acc, r, h, hf => by
    cases List.mem_cons.mp h with
    | inl he =>
      subst he
      have hb : r.file_type == "file" := by simp [hf]
      exact foldl_summStep_keep rest _ (extKey r.path)
        (by simpa [summStep, hb] using bumpExt_mem_self (extKey r.path) r.size acc)
    | inr hr => exact foldl_summStep_file_key rest _ r hr hf

/-- C7 (amended): `get_file_types_summary` groups each `"file"` record under
the key Rust's `Path::extension` yields, lowercased, with `no_extension`
when there is none: the substring after the last dot of the file name except
that a name whose only dot is the leading one (such as `.gitignore`) counts
as having no extension. `archive.tar.gz` groups under `gz`, `README` and
`.gitignore` under `no_extension`. -/
theorem extension_key_rust_rule (stats : List FileStats) (r : FileStats)
    (hr : r ∈ stats) (hf : r.file_type = "file") :
    (∃ c t, (extKey r.path, c, t) ∈ get_file_types_summary stats) ∧
    extKey "archive.tar.gz" = "gz" ∧
    extKey "README" = "no_extension" ∧
    extKey ".gitignore" = "no_extension" :=
  ⟨foldl_summStep_file_key stats [] r hr hf, by decide, by decide, by decide⟩

/-- C7 witness: the amended claim instantiated on a one-file scan result
holding `archive.tar.gz`. -/
theorem extension_key_rust_rule_witness :
    ∃ c t, (extKey "archive.tar.gz", c, t) ∈
      get_file_types_summary [⟨"archive.tar.gz", 7, "file", 0⟩] :=
  (extension_key_rust_rule [⟨"archive.tar.gz", 7, "file", 0⟩]
    ⟨"archive.tar.gz", 7, "file", 0⟩ (by simp) rfl).1

/-- C7 counterexample: for the file name `.gitignore` the claimed rule
(substring after the last dot) yields `gitignore`, but the program groups
the file under `no_extension` — `Path::extension` treats a leading-dot-only
name as having no extension. -/
theorem extension_claim_rule_counterexample :
    get_file_types_summary [⟨".gitignore", 10, "file", 0⟩] =
      [("no_extension", 1, 10)] ∧
    claimExtKey ".gitignore" = "gitignore" ∧
    ("gitignore" : String) ≠ "no_extension" :=
  ⟨rfl, rfl, by decide⟩
